import Mathlib

/-!
# jarvisbot: message parsing, routing and fault isolation

A shallow embedding of `jarvisbot.go`.

* Go strings are embedded as Lean `String`s (sequences of characters).  The only
  separator the program uses is the one-byte string `" "`, and the byte `0x20`
  never occurs inside a multi-byte UTF-8 sequence, so splitting the characters
  agrees with Go's splitting of the bytes.
* Library calls (`strings.Split`, `strings.Join`, slice indexing, `panic` /
  `recover`, `go`) are embedded from the Go language and library definitions.
* Side effects are explicit: a `World` records what was written to the bot's
  logger and what was sent through the transport, and a `Proc` adds the
  goroutines that were started and not yet run.
-/

set_option autoImplicit false

namespace Jarvisbot

/-! ## `strings` -/

/-- Go's `strings.Index(s, sep)`: position of the first instance of `sep` in `s`,
`none` for Go's `-1`. -/
def Index : List Char → List Char → Option Nat
  | [], sep => if sep = [] then some 0 else none
  | c :: t, sep =>
    if sep.isPrefixOf (c :: t) then some 0 else (Index t sep).map (· + 1)

/-- The loop of `strings.Count` for a non-empty `substr`: each round finds the
next instance and continues after it.  Every round consumes at least one
character, so `fuel = len(s)` rounds always suffice. -/
def countLoop (substr : List Char) : Nat → List Char → Nat
  | 0, _ => 0
  | fuel + 1, s =>
    match Index s substr with
    | none => 0
    | some i => 1 + countLoop substr fuel (s.drop (i + substr.length))

/-- Go's `strings.Count(s, substr)`: number of non-overlapping instances of `substr`
in `s`; for an empty `substr`, the number of characters plus one. -/
def Count (s substr : List Char) : Nat :=
  if substr = [] then s.length + 1 else countLoop substr s.length s

/-- The loop of `genSplit`: `for i < n { m := Index(s, sep); if m < 0 { break };
a[i] = s[:m]; s = s[m+len(sep):]; i++ }; a[i] = s`, with `k` the number of rounds
still allowed (`n - i`). -/
def splitLoop (sep : List Char) : Nat → List Char → List (List Char)
  | 0, s => [s]
  | k + 1, s =>
    match Index s sep with
    | none => [s]
    | some m => s.take m :: splitLoop sep k (s.drop (m + sep.length))

/-- Go's `genSplit(s, sep, 0, -1)`, the body of `strings.Split`, on character
sequences: an empty `sep` explodes `s` into its characters; otherwise
`n = Count(s, sep) + 1`, clamped to `len(s) + 1`, and the loop runs `n - 1`
rounds. -/
def genSplit (s sep : List Char) : List (List Char) :=
  if sep = [] then s.map (fun c => [c])
  else splitLoop sep (min (Count s sep + 1) (s.length + 1) - 1) s

/-- Go's `strings.Split(s, sep)`. -/
def Split (s sep : String) : List String :=
  (genSplit s.data sep.data).map String.mk

/-- Go's `strings.Join(elems, sep)`: the elements concatenated with `sep` between
consecutive elements. -/
def Join : List String → String → String
  | [], _ => ""
  | [a], _ => a
  | a :: b :: rest, sep => a ++ sep ++ Join (b :: rest) sep

/-! ## Panics and slices -/

/-- A non-nil value passed to `panic`, with its rendering under the `%s` verb. -/
structure PanicValue where
  description : String
  deriving DecidableEq, Repr

/-- The run-time panic of an out-of-range index. -/
def indexOutOfRange : PanicValue := ⟨"runtime error: index out of range"⟩

/-- The run-time panic of an out-of-range slice bound. -/
def sliceBoundsOutOfRange : PanicValue := ⟨"runtime error: slice bounds out of range"⟩

/-- The run-time panic of calling a nil function or dereferencing a nil pointer. -/
def nilDereference : PanicValue :=
  ⟨"runtime error: invalid memory address or nil pointer dereference"⟩

/-- Index expression `a[i]` on a slice: panics when `i` is out of range. -/
def sliceIndex {α : Type} (a : List α) (i : Nat) : Except PanicValue α :=
  match a.get? i with
  | some x => .ok x
  | none => .error indexOutOfRange

/-- Slice expression `a[i:]`: panics when `i > len(a)`. -/
def sliceFrom {α : Type} (a : List α) (i : Nat) : Except PanicValue (List α) :=
  if i ≤ a.length then .ok (a.drop i) else .error sliceBoundsOutOfRange

/-! ## Messages -/

/-- The fields of `telebot.Message` the program reads: the text. -/
structure TelebotMessage where
  Text : String
  deriving DecidableEq, Repr

/-- Wrapper struct for a message. -/
structure message where
  Cmd : String
  Args : List String
  Message : TelebotMessage
  deriving DecidableEq, Repr

/-- Helper to parse incoming messages and return JarvisBot messages. -/
def parseMessage (msg : TelebotMessage) : Except PanicValue message := do
  let msgTokens := Split msg.Text " "
  let cmd ← sliceIndex msgTokens 0
  let args ← sliceFrom msgTokens 1
  return { Cmd := cmd, Args := args, Message := msg }

/-- The text split at every single space character: the segments between
consecutive spaces, in order (the wording of the parsing contract). -/
def segments (t : String) : List String :=
  (t.data.splitOn ' ').map String.mk

/-! ## Effects, functions and goroutines -/

/-- A Go string or byte slice as the bytes it holds. -/
abbrev Bytes := List UInt8

/-- The bytes of a text: its UTF-8 encoding. -/
def utf8 (s : String) : Bytes :=
  s.data.flatMap String.utf8EncodeChar

/-- What running code can change outside its own variables: the entries handed
to the bot's logger, as the bytes of each formatted message, and the replies
sent through the transport, oldest first. -/
structure World where
  log : List Bytes
  sent : List String
  deriving DecidableEq, Repr

/-- A goroutine that is panicking.  `value` is the value passed to `panic` as
`recover()` returns it: `none` is nil, which is what `recover()` returns after
`panic(nil)` when the program is built with Go before 1.21 or runs with
`GODEBUG=panicnil=1`.  `trace` holds the bytes `runtime.Stack` would write for
the goroutine at that moment into a buffer of unlimited size. -/
structure Panic where
  value : Option PanicValue
  trace : Bytes
  deriving DecidableEq, Repr

/-- The result of running a call to completion: the world it leaves behind and,
when it ended by panicking rather than returning, the panic. -/
structure Ran where
  world : World
  panic : Option Panic
  deriving DecidableEq, Repr

/-- A function value of type `func()`, by what a call of it does. -/
abbrev Func := World → Ran

/-- A non-nil function value of type `func(m *message)`. -/
abbrev Handler := message → World → Ran

/-- A value of type `ResponseFunc`; `none` is the nil function. -/
abbrev ResponseFunc := Option Handler

/-- A FuncMap is a map of command strings to response functions: `none` is the
nil map, `some entries` a map holding the listed key/value pairs. -/
abbrev FuncMap := Option (List (String × ResponseFunc))

/-- The keys of a map. -/
def FuncMap.keys (m : FuncMap) : List String :=
  match m with
  | none => []
  | some entries => entries.map Prod.fst

/-- The map index expression `m[k]`: the value stored under `k`, and the zero
value (the nil function) when `k` is not a key or the map is nil. -/
def FuncMap.index (m : FuncMap) (k : String) : ResponseFunc :=
  match m with
  | none => none
  | some entries =>
    match entries.lookup k with
    | some f => f
    | none => none

/-- The nil function of type `func()`, by what a call of it does: it panics with
a nil dereference. -/
def nilFunc (trace : Bytes) : Func := fun w =>
  { world := w, panic := some ⟨some nilDereference, trace⟩ }

/-- The process: the world, the goroutines started by `go` statements that have
not run yet, and whether an unrecovered panic has terminated the process. -/
structure Proc where
  world : World
  goroutines : List Func
  crashed : Bool

/-- Runs one goroutine to its end.  A panic that reaches the top of the
goroutine's stack terminates the whole process. -/
def runGoroutine (g : Func) (p : Proc) : Proc :=
  let r := g p.world
  { world := r.world, goroutines := p.goroutines, crashed := p.crashed || r.panic.isSome }

/-- Runs the listed goroutines in turn from world `w`, stopping when the process
has crashed. -/
def runList : List Func → World → Bool → Proc
  | [], w, c => ⟨w, [], c⟩
  | g :: gs, w, c =>
    if c then ⟨w, g :: gs, c⟩
    else
      let q := runGoroutine g ⟨w, gs, c⟩
      runList gs q.world q.crashed

/-- Runs the started goroutines, first started first, until none is left or the
process has crashed.  No goroutine of this program starts another one. -/
def runAll (p : Proc) : Proc :=
  runList p.goroutines p.world p.crashed

/-! ## The store -/

/-- The part of a `bolt.DB` the program depends on: the names of its buckets
and the storage-layer failure (disk or permission error), if any, that a
read-write transaction on it meets. -/
structure DB where
  buckets : List String
  failure : Option String
  deriving DecidableEq, Repr

/-- The call `tx.CreateBucketIfNotExists(name)` on the buckets seen by a transaction:
creates the bucket unless it exists; a blank name is an error. -/
def CreateBucketIfNotExists (buckets : List String) (name : String) :
    Except String (List String) :=
  if name = "" then .error "bucket name required"
  else if name ∈ buckets then .ok buckets
  else .ok (buckets ++ [name])

/-- The call `db.Update(fn)`: runs `fn` in a read-write transaction; commits when `fn`
returns nil, rolls back and returns the error otherwise; a storage-layer
failure is returned and leaves the database as it was. -/
def DB.Update (db : DB) (fn : List String → Except String (List String)) :
    DB × Option String :=
  match db.failure with
  | some e => (db, some e)
  | none =>
    match fn db.buckets with
    | .error e => (db, some e)
    | .ok bs => ({ db with buckets := bs }, none)

/-- The name of the bucket of exchange rates. -/
def exchange_rate_bucket_name : String := "rates"

/-- Ensure all buckets needed by jarvisbot are created.  Returns the database
after the transaction and the error, `none` for nil. -/
def createAllBuckets (db : DB) : DB × Option String :=
  db.Update fun tx =>
    match CreateBucketIfNotExists tx exchange_rate_bucket_name with
    | .error err => .error ("create bucket: " ++ err)
    | .ok tx1 => .ok tx1

/-! ## The bot -/

/-- A `log.Logger`: the writer it prints to, the text it starts each line with,
and its flags. -/
structure Logger where
  out : String
  lead : String
  flag : Nat
  deriving DecidableEq, Repr

/-- A `telebot.Bot`, identified by its token. -/
structure TelebotBot where
  Token : String
  deriving DecidableEq, Repr

/-- JarvisBot is the main struct. All response funcs bind to this. -/
structure JarvisBot where
  bot : Option TelebotBot
  log : Logger
  fmap : FuncMap
  db : Option DB

/-- The response methods that `GetDefaultFuncMap` binds.  `SayHello`, `Echo` and
`Exchange` are declared in files of the repository that are not available, and
`Retrieve` calls such methods, so the four are taken as given function values. -/
structure Builtins where
  SayHello : Handler
  Echo : Handler
  Exchange : Handler
  Retrieve : Handler

/-- Get the built-in, default FuncMap. -/
def GetDefaultFuncMap (b : Builtins) : FuncMap :=
  some [("/hello", some b.SayHello),
        ("/echo", some b.Echo),
        ("/xchg", some b.Exchange),
        ("/rxr", some b.Retrieve)]

/-- How a call of `InitJarvis` ends: `lg.Fatal` printed the error and exited the
process, or the call returned a bot. -/
inductive InitResult where
  | fatal (lg : Logger) (err : String)
  | returned (j : JarvisBot)

/-- Initialise a JarvisBot.  `lg` and `fmap` are optional (`none` is nil).
`opened` is what `bolt.Open("jarvis.db", 0600, nil)` returns.  The value that
`createAllBuckets` returns is dropped, as in the source; `j.db` is a pointer, so
it sees the database as the call left it. -/
def InitJarvis (bot : Option TelebotBot) (lg : Option Logger) (fmap : FuncMap)
    (b : Builtins) (opened : Except String DB) : InitResult :=
  let lg := match lg with
    | none => { out := "os.Stdout", lead := "[jarvis] ", flag := 0 }
    | some l => l
  let j : JarvisBot := { bot := bot, log := lg, fmap := fmap, db := none }
  let j := if fmap.isNone then { j with fmap := GetDefaultFuncMap b } else j
  match opened with
  | .error err => .fatal lg err
  | .ok db =>
    let created := createAllBuckets db
    .returned { j with db := some created.1 }

/-- Set a custom FuncMap. -/
def SetFuncMap (j : JarvisBot) (fmap : FuncMap) : JarvisBot :=
  { j with fmap := fmap }

/-- The size of the buffer `GoSafely` hands to `runtime.Stack`. -/
def stackBufferSize : Nat := 1024 * 8

/-- The slice `stack[:runtime.Stack(stack, false)]` for a buffer of
`stackBufferSize` bytes: `runtime.Stack` writes as many bytes of the trace as
the buffer holds and returns their number. -/
def capturedStack (trace : Bytes) : Bytes :=
  trace.take (min trace.length stackBufferSize)

/-- The call `recover()` in a deferred function: the value of the panic, nil
when the goroutine is not panicking or the value is nil. -/
def recover (panic : Option Panic) : Option PanicValue :=
  match panic with
  | some pnc => pnc.value
  | none => none

/-- The trace of the goroutine while the deferred function runs. -/
def traceOf (panic : Option Panic) : Bytes :=
  match panic with
  | some pnc => pnc.trace
  | none => []

/-- The deferred function of `GoSafely`, run when `fn()` has ended.  The call
of `recover()` stops the panicking, if any; when it returns a non-nil `err`,
`j.log.Printf("PANIC: %s\n%s", err, stack)` prints one entry; when it returns
nil nothing is printed. -/
def recoverAndLog (r : Ran) : Ran :=
  match recover r.panic with
  | some err =>
    let stack := capturedStack (traceOf r.panic)
    { world := { r.world with
        log := r.world.log ++
          [utf8 "PANIC: " ++ utf8 err.description ++ utf8 "\n" ++ stack] },
      panic := none }
  | none => { world := r.world, panic := none }

/-- The function literal that `GoSafely` starts as a goroutine:
`defer func() { if err := recover(); err != nil { ... } }(); fn()`. -/
def safely (fn : Func) : Func := fun w =>
  recoverAndLog (fn w)

/-- GoSafely is a utility wrapper to recover and log panics in goroutines: the
`go` statement starts the goroutine and returns. -/
def GoSafely (_j : JarvisBot) (fn : Func) (p : Proc) : Proc :=
  { p with goroutines := p.goroutines ++ [safely fn] }

/-- Route received Telegram messages to the appropriate response functions.
Returns the receiver and the process as the call leaves them, or the panic
raised in the caller. -/
def Router (j : JarvisBot) (msg : TelebotMessage) (p : Proc) :
    Except PanicValue (JarvisBot × Proc) := do
  let jmsg ← parseMessage msg
  let execFn := j.fmap.index jmsg.Cmd
  match execFn with
  | some f => return (j, GoSafely j (fun w => f jmsg w) p)
  | none => return (j, p)

/-! ## Sample values -/

/-- A handler that replies with its arguments joined by a single space and
returns. -/
def echoArgs : Handler := fun m w =>
  { world := { log := w.log, sent := w.sent ++ [Join m.Args " "] }, panic := none }

/-- A bot whose registry binds `"/echo"` to `echoArgs`. -/
def echoBot : JarvisBot :=
  { bot := none,
    log := { out := "os.Stdout", lead := "[jarvis] ", flag := 0 },
    fmap := some [("/echo", some echoArgs)],
    db := none }

/-- The function literal `func() { panic(nil) }`. -/
def panicNil (trace : Bytes) : Func := fun w =>
  { world := w, panic := some ⟨none, trace⟩ }

/-- A database that opens and whose read-write transactions fail. -/
def fullDiskDB : DB :=
  { buckets := [], failure := some "write jarvis.db: no space left on device" }

/-! ## Lemmas on splitting at a space -/

theorem Index_space_cons (c : Char) (t : List Char) :
    Index (c :: t) [' '] = if c = ' ' then some 0 else (Index t [' ']).map (· + 1) := by
  by_cases h : c = ' '
  · subst h; simp [Index, List.isPrefixOf]
  · have h2 : ¬ (' ' = c) := fun e => h e.symm
    simp [Index, List.isPrefixOf, h, h2]

theorem splitLoop_space_cons_ne (k : Nat) (c : Char) (t : List Char) (h : c ≠ ' ') :
    splitLoop [' '] k (c :: t) = (splitLoop [' '] k t).modifyHead (List.cons c) := by
  cases k with
  | zero => simp [splitLoop, List.modifyHead]
  | succ k =>
    simp only [splitLoop, Index_space_cons, if_neg h]
    cases hi : Index t [' '] with
    | none => simp [List.modifyHead]
    | some m => simp [List.modifyHead]

theorem splitLoop_space (s : List Char) :
    ∀ k, s.count ' ' ≤ k → splitLoop [' '] k s = s.splitOn ' ' := by
  induction s with
  | nil => intro k _; cases k <;> simp [splitLoop, Index, List.splitOn]
  | cons c t ih =>
    intro k hk
    by_cases h : c = ' '
    · subst h
      simp only [List.count_cons_self] at hk
      obtain ⟨k, rfl⟩ : ∃ j, k = j + 1 := ⟨k - 1, by omega⟩
      have := ih k (by omega)
      simp only [splitLoop, Index_space_cons, if_true, List.splitOn, List.splitOnP_cons] at this ⊢
      simp [this]
    · have hk2 : t.count ' ' ≤ k := by
        rw [List.count_cons_of_ne (fun e => h e.symm)] at hk; exact hk
      rw [splitLoop_space_cons_ne k c t h, ih k hk2]
      simp [List.splitOn, List.splitOnP_cons, h]

theorem countLoop_space_cons_ne (f : Nat) (c : Char) (t : List Char) (h : c ≠ ' ') :
    countLoop [' '] (f + 1) (c :: t) = countLoop [' '] (f + 1) t := by
  simp only [countLoop, Index_space_cons, if_neg h]
  cases hi : Index t [' '] with
  | none => simp
  | some m => simp

theorem countLoop_space (s : List Char) :
    ∀ fuel, s.length ≤ fuel → countLoop [' '] fuel s = s.count ' ' := by
  induction s with
  | nil => intro fuel _; cases fuel <;> simp [countLoop, Index]
  | cons c t ih =>
    intro fuel hf
    obtain ⟨f, rfl⟩ : ∃ j, fuel = j + 1 := ⟨fuel - 1, by simp at hf; omega⟩
    simp only [List.length_cons] at hf
    by_cases h : c = ' '
    · subst h
      have := ih f (by omega)
      simp [countLoop, Index_space_cons, this]; omega
    · rw [countLoop_space_cons_ne f c t h, ih (f + 1) (by omega),
        List.count_cons_of_ne (fun e => h e.symm)]

theorem Count_space (s : List Char) : Count s [' '] = s.count ' ' := by
  simp [Count, countLoop_space s s.length (le_refl _)]

theorem genSplit_space (s : List Char) : genSplit s [' '] = s.splitOn ' ' := by
  have hc : s.count ' ' ≤ s.length := List.count_le_length _ _
  have hm : min (s.count ' ' + 1) (s.length + 1) - 1 = s.count ' ' := by omega
  simp only [genSplit, Count_space, hm]
  rw [if_neg (by simp)]
  exact splitLoop_space s _ (le_refl _)

theorem Split_space (t : String) : Split t " " = segments t := by
  simp only [Split, segments]
  rw [genSplit_space]

theorem segments_ne_nil (t : String) : segments t ≠ [] := by
  simp [segments, List.splitOn, List.splitOnP_ne_nil]

/-- What `parseMessage` computes, in terms of the segments of the text. -/
theorem parseMessage_segments (msg : TelebotMessage) (c : String) (args : List String)
    (h : segments msg.Text = c :: args) :
    parseMessage msg = .ok { Cmd := c, Args := args, Message := msg } := by
  simp [parseMessage, Split_space, h, sliceIndex, sliceFrom, bind, Except.bind, pure,
    Except.pure]

theorem splitOn_append_sep (a : Char) (xs ys : List Char) :
    (xs ++ a :: ys).splitOn a = xs.splitOn a ++ ys.splitOn a := by
  induction xs with
  | nil => simp [List.splitOn, List.splitOnP_cons]
  | cons x xs ih =>
    simp only [List.splitOn] at ih ⊢
    simp only [List.cons_append, List.splitOnP_cons, ih]
    by_cases h : (x == a) = true
    · simp [h]
    · simp only [h, if_false]
      cases hs : List.splitOnP (· == a) xs with
      | nil => exact absurd hs (List.splitOnP_ne_nil _ _)
      | cons hd tl => simp [List.modifyHead]

theorem splitOn_replicate (a : Char) (n : Nat) :
    (List.replicate n a).splitOn a = List.replicate (n + 1) [] := by
  induction n with
  | zero => simp [List.splitOn]
  | succ n ih =>
    simp only [List.splitOn] at ih ⊢
    simp [List.replicate_succ, List.splitOnP_cons, ih]

theorem splitOn_no_sep (a : Char) (s : List Char) :
    ∀ seg ∈ s.splitOn a, a ∉ seg := by
  induction s with
  | nil => simp [List.splitOn]
  | cons x xs ih =>
    simp only [List.splitOn] at ih ⊢
    rw [List.splitOnP_cons]
    by_cases h : (x == a) = true
    · simp only [h, if_true]
      intro seg hseg
      rcases List.mem_cons.1 hseg with rfl | hm
      · simp
      · exact ih seg hm
    · simp only [h, if_false]
      cases hs : List.splitOnP (· == a) xs with
      | nil => exact absurd hs (List.splitOnP_ne_nil _ _)
      | cons hd tl =>
        rw [hs] at ih
        intro seg hseg
        have hseg2 : seg ∈ (x :: hd) :: tl := by simpa [List.modifyHead] using hseg
        rcases List.mem_cons.1 hseg2 with he | hm
        · have h1 := ih hd (List.mem_cons_self _ _)
          have hx : a ≠ x := fun e => h (by simp [e])
          rw [he]
          simp [hx, h1]
        · exact ih seg (List.mem_cons_of_mem _ hm)

theorem splitOn_length (a : Char) (s : List Char) :
    (s.splitOn a).length = s.count a + 1 := by
  induction s with
  | nil => simp [List.splitOn]
  | cons x xs ih =>
    simp only [List.splitOn] at ih ⊢
    rw [List.splitOnP_cons]
    by_cases h : (x == a) = true
    · have hx : x = a := by simpa using h
      subst hx
      simp [ih]
    · have hx : x ≠ a := fun e => h (by simp [e])
      simp only [h, if_false]
      rw [List.count_cons_of_ne hx.symm, ← ih]
      cases hs : List.splitOnP (· == a) xs with
      | nil => exact absurd hs (List.splitOnP_ne_nil _ _)
      | cons hd tl => simp [List.modifyHead]

theorem Join_data (l : List String) (sep : String) :
    (Join l sep).data = sep.data.intercalate (l.map String.data) := by
  induction l with
  | nil => simp [Join, List.intercalate]
  | cons a t ih =>
    cases t with
    | nil => simp [Join, List.intercalate]
    | cons b rest =>
      simp only [Join, String.data_append, ih]
      simp [List.intercalate, List.intersperse]

theorem Join_segments (t : String) : Join (segments t) " " = t := by
  apply String.ext
  rw [Join_data]
  simp only [segments, List.map_map]
  have : (String.data ∘ String.mk) = (id : List Char → List Char) := by
    funext x; rfl
  rw [this, List.map_id]
  exact List.intercalate_splitOn _ ' '

theorem Split_append_two_spaces (a b : String) :
    Split (a ++ "  " ++ b) " " = Split a " " ++ "" :: Split b " " := by
  simp only [Split_space, segments, String.data_append]
  have h3 : a.data ++ [' ', ' '] ++ b.data = a.data ++ ' ' :: ([] ++ ' ' :: b.data) := by simp
  rw [h3, splitOn_append_sep, splitOn_append_sep]
  simp [List.splitOn]

theorem segments_no_space (t : String) (h : ' ' ∉ t.data) : segments t = [t] := by
  simp only [segments, List.splitOn]
  rw [List.splitOnP_eq_single]
  · rfl
  · intro x hx hp
    have : x = ' ' := by simpa using hp
    exact h (this ▸ hx)

theorem segments_only_spaces (t : String) (h : ∀ c ∈ t.data, c = ' ') :
    segments t = "" :: List.replicate t.data.length "" := by
  have hd : t.data = List.replicate t.data.length ' ' :=
    List.eq_replicate_iff.2 ⟨rfl, h⟩
  simp only [segments]
  rw [hd, splitOn_replicate]
  simp [List.replicate_succ]

theorem FuncMap.index_of_not_key (m : FuncMap) (k : String) (h : k ∉ m.keys) :
    m.index k = none := by
  cases m with
  | none => rfl
  | some entries =>
    have hl : entries.lookup k = none := by
      induction entries with
      | nil => rfl
      | cons e es ih =>
        obtain ⟨k1, v⟩ := e
        simp only [FuncMap.keys, List.map_cons, List.mem_cons, not_or] at h
        have hne : (k == k1) = false := by simpa using h.1
        simp only [List.lookup, hne]
        exact ih (by simpa [FuncMap.keys] using h.2)
    simp [FuncMap.index, hl]

theorem Router_of_some (j : JarvisBot) (msg : TelebotMessage) (p : Proc) (jmsg : message)
    (f : Handler) (hp : parseMessage msg = .ok jmsg) (hf : j.fmap.index jmsg.Cmd = some f) :
    Router j msg p = .ok (j, GoSafely j (fun w => f jmsg w) p) := by
  simp only [Router, hp, bind, Except.bind]
  rw [hf]
  rfl

theorem Router_of_none (j : JarvisBot) (msg : TelebotMessage) (p : Proc) (jmsg : message)
    (hp : parseMessage msg = .ok jmsg) (hf : j.fmap.index jmsg.Cmd = none) :
    Router j msg p = .ok (j, p) := by
  simp only [Router, hp, bind, Except.bind]
  rw [hf]
  rfl

theorem parseMessage_total (msg : TelebotMessage) : ∃ m, parseMessage msg = .ok m := by
  cases hs : segments msg.Text with
  | nil => exact absurd hs (segments_ne_nil _)
  | cons c args => exact ⟨_, parseMessage_segments msg c args hs⟩

theorem segments_echo (s : String) : segments ("/echo " ++ s) = "/echo" :: segments s := by
  simp only [segments, String.data_append]
  have h : ("/echo " : String).data ++ s.data = "/echo".data ++ ' ' :: s.data := rfl
  rw [h, splitOn_append_sep]
  rfl

/-! ## Parsing -/

/-- C1: for every text, `parseMessage` returns as `Cmd` the first and as `Args`
the remaining segments, in order, of the text split at every single space;
two consecutive spaces give an empty-string element; `"/cmd a  b"` gives
`Cmd = "/cmd"` and `Args = ["a", "", "b"]`; a text without a space gives
`Cmd` the text and `Args` the empty sequence. -/
theorem parseMessage_splits_at_every_space :
    (∀ msg : TelebotMessage, ∃ c args, segments msg.Text = c :: args ∧
      parseMessage msg = .ok { Cmd := c, Args := args, Message := msg }) ∧
    (∀ a b : String, Split (a ++ "  " ++ b) " " = Split a " " ++ "" :: Split b " ") ∧
    parseMessage ⟨"/cmd a  b"⟩ = .ok ⟨"/cmd", ["a", "", "b"], ⟨"/cmd a  b"⟩⟩ ∧
    (∀ msg : TelebotMessage, ' ' ∉ msg.Text.data →
      parseMessage msg = .ok ⟨msg.Text, [], msg⟩) := by
  refine ⟨?_, Split_append_two_spaces, rfl, ?_⟩
  · intro msg
    cases hs : segments msg.Text with
    | nil => exact absurd hs (segments_ne_nil _)
    | cons c args => exact ⟨c, args, rfl, parseMessage_segments msg c args hs⟩
  · intro msg h
    exact parseMessage_segments msg _ _ (segments_no_space _ h)

/-- C2, the claim at the text of one space: the text consists only of spaces,
and `Args` is the one-element sequence `[""]`, not the empty sequence. -/
theorem parseMessage_one_space_has_an_arg :
    (∀ c ∈ (" " : String).data, c = ' ') ∧
    parseMessage ⟨" "⟩ = .ok ⟨"", [""], ⟨" "⟩⟩ ∧
    parseMessage ⟨" "⟩ ≠ .ok ⟨"", [], ⟨" "⟩⟩ := by
  refine ⟨by decide, rfl, ?_⟩
  intro h
  have h2 : (Except.ok ⟨"", [""], ⟨" "⟩⟩ : Except PanicValue message) = .ok ⟨"", [], ⟨" "⟩⟩ := h
  simp at h2

/-- C2 as amended: for a text that is empty or consists only of spaces,
`parseMessage` returns `Cmd` the empty string and `Args` one empty string for
each space of the text, hence the empty sequence for the empty text. -/
theorem parseMessage_only_spaces (msg : TelebotMessage)
    (h : ∀ c ∈ msg.Text.data, c = ' ') :
    parseMessage msg =
      .ok ⟨"", List.replicate msg.Text.data.length "", msg⟩ ∧
    (msg.Text = "" → parseMessage msg = .ok ⟨"", [], msg⟩) := by
  have h1 := parseMessage_segments msg _ _ (segments_only_spaces msg.Text h)
  refine ⟨h1, ?_⟩
  intro he
  rw [h1, he]
  rfl

theorem parseMessage_only_spaces_witness :
    (∀ c ∈ (⟨"   "⟩ : TelebotMessage).Text.data, c = ' ') ∧
    parseMessage ⟨"   "⟩ = .ok ⟨"", ["", "", ""], ⟨"   "⟩⟩ :=
  ⟨by decide, (parseMessage_only_spaces ⟨"   "⟩ (by decide)).1⟩

/-- C10: `parseMessage` loses nothing of the text: `Cmd` followed by `Args`,
joined with a single space, is the text; neither `Cmd` nor an element of `Args`
contains a space; `Args` has as many elements as the text has spaces. -/
theorem parseMessage_lossless (msg : TelebotMessage) :
    ∃ m, parseMessage msg = .ok m ∧
      Join (m.Cmd :: m.Args) " " = msg.Text ∧
      ' ' ∉ m.Cmd.data ∧
      (∀ a ∈ m.Args, ' ' ∉ a.data) ∧
      m.Args.length = msg.Text.data.count ' ' := by
  cases hs : segments msg.Text with
  | nil => exact absurd hs (segments_ne_nil _)
  | cons c args =>
    refine ⟨_, parseMessage_segments msg c args hs, ?_, ?_, ?_, ?_⟩
    · show Join (c :: args) " " = msg.Text
      rw [← hs]; exact Join_segments _
    · have hmem : c ∈ segments msg.Text := by rw [hs]; exact List.mem_cons_self _ _
      simp only [segments, List.mem_map] at hmem
      obtain ⟨l, hl, rfl⟩ := hmem
      exact splitOn_no_sep ' ' _ l hl
    · intro a ha
      have hmem : a ∈ segments msg.Text := by rw [hs]; exact List.mem_cons_of_mem _ ha
      simp only [segments, List.mem_map] at hmem
      obtain ⟨l, hl, rfl⟩ := hmem
      exact splitOn_no_sep ' ' _ l hl
    · have hl : (segments msg.Text).length = msg.Text.data.count ' ' + 1 := by
        simp [segments, splitOn_length]
      rw [hs] at hl
      simpa using hl

/-! ## Registry and routing -/

/-- C3: after `SetFuncMap(m)` the lookup `j.fmap[k]` of `Router` is `m[k]`: the
value stored under `k` when `k` is a key of `m`, the nil function when it is
not; the mapping held before plays no part, and `Router` dispatches on `m[k]`. -/
theorem SetFuncMap_replaces_registry (j : JarvisBot) (m : FuncMap) (k : String) :
    (SetFuncMap j m).fmap = m ∧
    (SetFuncMap j m).fmap.index k = m.index k ∧
    (∀ entries f, m = some entries → entries.lookup k = some f →
      (SetFuncMap j m).fmap.index k = f) ∧
    (k ∉ m.keys → (SetFuncMap j m).fmap.index k = none) ∧
    (∀ j2 : JarvisBot, (SetFuncMap j2 m).fmap.index k = (SetFuncMap j m).fmap.index k) ∧
    (∀ msg p jmsg, parseMessage msg = .ok jmsg → jmsg.Cmd = k →
      Router (SetFuncMap j m) msg p =
        match m.index k with
        | some f => .ok (SetFuncMap j m, GoSafely (SetFuncMap j m) (fun w => f jmsg w) p)
        | none => .ok (SetFuncMap j m, p)) := by
  refine ⟨rfl, rfl, ?_, ?_, fun _ => rfl, ?_⟩
  · intro entries f hm hl
    subst hm
    simp [SetFuncMap, FuncMap.index, hl]
  · intro h
    exact FuncMap.index_of_not_key m k h
  · intro msg p jmsg hp hk
    subst hk
    cases hf : m.index jmsg.Cmd with
    | none => exact Router_of_none _ msg p jmsg hp hf
    | some f => exact Router_of_some _ msg p jmsg f hp hf

/-- C4: `Router` parses the message; when the registry holds a handler for the
parsed `Cmd` it hands `GoSafely` exactly one unit of work, which calls that
handler on the parsed invocation, and changes nothing else; when the registry
holds none it changes nothing at all.  The registry is the same afterwards. -/
theorem Router_submits_one_unit_or_nothing (j : JarvisBot) (msg : TelebotMessage)
    (p : Proc) :
    ∃ jmsg, parseMessage msg = .ok jmsg ∧ jmsg.Message = msg ∧
      (∀ f, j.fmap.index jmsg.Cmd = some f →
        Router j msg p = .ok (j, GoSafely j (fun w => f jmsg w) p) ∧
        Router j msg p = .ok (j, { world := p.world,
                                   goroutines := p.goroutines ++ [safely (fun w => f jmsg w)],
                                   crashed := p.crashed }) ∧
        ∀ w, safely (fun w => f jmsg w) w = recoverAndLog (f jmsg w)) ∧
      (j.fmap.index jmsg.Cmd = none → Router j msg p = .ok (j, p)) := by
  cases hs : segments msg.Text with
  | nil => exact absurd hs (segments_ne_nil _)
  | cons c args =>
    have hp := parseMessage_segments msg c args hs
    refine ⟨_, hp, rfl, ?_, ?_⟩
    · intro f hf
      have hr := Router_of_some j msg p _ f hp hf
      exact ⟨hr, hr, fun _ => rfl⟩
    · intro hf
      exact Router_of_none j msg p _ hp hf

/-- C7: `Router` returns to its caller without raising, for every bot, message
and process: splitting a text at `" "` yields at least one segment, so
`parseMessage` does not go out of range, and the lookup of a token that is not a
key yields the nil function. -/
theorem Router_never_raises (j : JarvisBot) (msg : TelebotMessage) (p : Proc) :
    1 ≤ (Split msg.Text " ").length ∧
    (∃ m, parseMessage msg = .ok m) ∧
    (∃ r, Router j msg p = .ok r) ∧
    (∀ k, k ∉ j.fmap.keys → j.fmap.index k = none) := by
  refine ⟨?_, parseMessage_total msg, ?_, fun k hk => FuncMap.index_of_not_key _ k hk⟩
  · rw [Split_space]
    have := segments_ne_nil msg.Text
    cases hs : segments msg.Text with
    | nil => exact absurd hs this
    | cons c args => simp
  · obtain ⟨jmsg, hp⟩ := parseMessage_total msg
    cases hf : j.fmap.index jmsg.Cmd with
    | none => exact ⟨_, Router_of_none j msg p jmsg hp hf⟩
    | some f => exact ⟨_, Router_of_some j msg p jmsg f hp hf⟩

/-! ## Fault isolation -/

/-- What the goroutine started by `GoSafely` does.  When `fn` panics with a
non-nil value `e` it writes exactly one entry to the logger: `"PANIC: "`, the
description of `e`, a newline and the first 8192 bytes of the trace (the whole
trace when it is no longer than that); when `fn` returns it changes nothing.  In
every case the goroutine ends without panicking, so running it neither crashes
the process nor touches the other goroutines. -/
theorem safely_recovers_and_logs (fn : Func) :
    (∀ w w1 e t, fn w = ⟨w1, some ⟨some e, t⟩⟩ →
      safely fn w =
        ⟨{ log := w1.log ++
             [utf8 "PANIC: " ++ utf8 e.description ++ utf8 "\n" ++ t.take 8192],
           sent := w1.sent }, none⟩) ∧
    (∀ w w1 e t, fn w = ⟨w1, some ⟨some e, t⟩⟩ → t.length ≤ 8192 →
      safely fn w =
        ⟨{ log := w1.log ++ [utf8 "PANIC: " ++ utf8 e.description ++ utf8 "\n" ++ t],
           sent := w1.sent }, none⟩) ∧
    (∀ w w1, fn w = ⟨w1, none⟩ → safely fn w = ⟨w1, none⟩) ∧
    (∀ w, (safely fn w).panic = none) ∧
    (∀ q : Proc, (runGoroutine (safely fn) q).crashed = q.crashed ∧
      (runGoroutine (safely fn) q).goroutines = q.goroutines) := by
  have htake : ∀ t : Bytes, capturedStack t = t.take 8192 := by
    intro t
    simp only [capturedStack, stackBufferSize]
    rcases Nat.le_total t.length 8192 with h | h
    · rw [Nat.min_eq_left h, List.take_of_length_le (le_refl _), List.take_of_length_le h]
    · rw [Nat.min_eq_right h]
  have hnone : ∀ w, (safely fn w).panic = none := by
    intro w
    simp only [safely, recoverAndLog]
    cases h : recover (fn w).panic <;> simp
  have h1 : ∀ w w1 e t, fn w = ⟨w1, some ⟨some e, t⟩⟩ →
      safely fn w =
        ⟨{ log := w1.log ++
             [utf8 "PANIC: " ++ utf8 e.description ++ utf8 "\n" ++ t.take 8192],
           sent := w1.sent }, none⟩ := by
    intro w w1 e t h
    simp [safely, recoverAndLog, recover, traceOf, h, htake]
  refine ⟨h1, ?_, ?_, hnone, ?_⟩
  · intro w w1 e t h hl
    rw [h1 w w1 e t h, List.take_of_length_le hl]
  · intro w w1 h
    simp [safely, recoverAndLog, recover, h]
  · intro q
    simp [runGoroutine, hnone]

/-- C5, the code at a unit of work that calls `panic(nil)`: the unit panics,
`GoSafely` starts one goroutine for it, and that goroutine recovers the panic
and writes no entry to the logger; the log is as it was, although the unit
panicked.  A unit that calls the nil function, in contrast, is logged. -/
theorem GoSafely_swallows_nil_panic (j : JarvisBot) (trace : Bytes) (p : Proc) :
    (panicNil trace p.world).panic = some ⟨none, trace⟩ ∧
    GoSafely j (panicNil trace) p =
      { world := p.world,
        goroutines := p.goroutines ++ [safely (panicNil trace)],
        crashed := p.crashed } ∧
    safely (panicNil trace) p.world = ⟨p.world, none⟩ ∧
    (runGoroutine (safely (panicNil trace)) p).world.log = p.world.log ∧
    (runGoroutine (safely (nilFunc trace)) p).world.log =
      p.world.log ++
        [utf8 "PANIC: " ++
          utf8 "runtime error: invalid memory address or nil pointer dereference" ++
          utf8 "\n" ++ trace.take (min trace.length 8192)] :=
  ⟨rfl, rfl, rfl, rfl, rfl⟩

/-! ## End to end -/

/-- C8: for every string `s`, routing the text `"/echo " ++ s` through a registry
that binds `"/echo"` to a handler replying with its `Args` joined by a single
space, and then running the started goroutine, results in exactly one more
reply, equal to `s`, no log entry and no crash. -/
theorem Router_echo_end_to_end (j : JarvisBot) (h : Handler) (s : String) (w : World)
    (hreg : j.fmap.index "/echo" = some h)
    (hecho : ∀ m w, h m w =
      { world := { log := w.log, sent := w.sent ++ [Join m.Args " "] }, panic := none }) :
    ∃ p1, Router j ⟨"/echo " ++ s⟩ ⟨w, [], false⟩ = .ok (j, p1) ∧
      p1.goroutines.length = 1 ∧
      (runAll p1).world.sent = w.sent ++ [s] ∧
      (runAll p1).world.log = w.log ∧
      (runAll p1).crashed = false ∧
      (runAll p1).goroutines = [] := by
  have hp := parseMessage_segments ⟨"/echo " ++ s⟩ _ _ (segments_echo s)
  have hr := Router_of_some j ⟨"/echo " ++ s⟩ ⟨w, [], false⟩ _ h hp hreg
  refine ⟨_, hr, ?_, ?_, ?_, ?_, ?_⟩ <;>
    simp [GoSafely, runAll, runList, runGoroutine, safely, recoverAndLog, recover, hecho,
      Join_segments]

theorem Router_echo_end_to_end_witness :
    ∃ p1, Router echoBot ⟨"/echo hello world"⟩ ⟨⟨[], []⟩, [], false⟩ = .ok (echoBot, p1) ∧
      p1.goroutines.length = 1 ∧
      (runAll p1).world.sent = ["hello world"] ∧
      (runAll p1).world.log = [] ∧
      (runAll p1).crashed = false ∧
      (runAll p1).goroutines = [] :=
  Router_echo_end_to_end echoBot echoArgs "hello world" ⟨[], []⟩ rfl (fun _ _ => rfl)

/-! ## Initialisation -/

/-- C9: when the database opens, `InitJarvis` returns a bot whose registry is
`fmap` itself if `fmap` is not nil (an empty mapping included) and the default
mapping if it is nil.  The default mapping has exactly the keys `"/hello"`,
`"/echo"`, `"/xchg"` and `"/rxr"`, each bound to a non-nil handler, so under it
`Router` drops every message whose `Cmd` is another string, the empty string
included. -/
theorem InitJarvis_registry (bot : Option TelebotBot) (lg : Option Logger)
    (fmap : FuncMap) (b : Builtins) (db : DB) :
    (∃ j, InitJarvis bot lg fmap b (.ok db) = .returned j ∧
      (∀ entries, fmap = some entries → j.fmap = some entries) ∧
      (fmap = none → j.fmap = GetDefaultFuncMap b)) ∧
    (GetDefaultFuncMap b).keys = ["/hello", "/echo", "/xchg", "/rxr"] ∧
    (∀ k ∈ (GetDefaultFuncMap b).keys, ∃ f, (GetDefaultFuncMap b).index k = some f) ∧
    (∀ (j : JarvisBot) (msg : TelebotMessage) (p : Proc) (jmsg : message),
      j.fmap = GetDefaultFuncMap b → parseMessage msg = .ok jmsg →
      jmsg.Cmd ∉ ["/hello", "/echo", "/xchg", "/rxr"] → Router j msg p = .ok (j, p)) ∧
    (∀ (j : JarvisBot) (p : Proc), j.fmap = GetDefaultFuncMap b →
      Router j ⟨""⟩ p = .ok (j, p)) := by
  have hkeys : (GetDefaultFuncMap b).keys = ["/hello", "/echo", "/xchg", "/rxr"] := rfl
  have hdrop : ∀ (j : JarvisBot) (msg : TelebotMessage) (p : Proc) (jmsg : message),
      j.fmap = GetDefaultFuncMap b → parseMessage msg = .ok jmsg →
      jmsg.Cmd ∉ ["/hello", "/echo", "/xchg", "/rxr"] → Router j msg p = .ok (j, p) := by
    intro j msg p jmsg hj hp hk
    apply Router_of_none j msg p jmsg hp
    rw [hj]
    exact FuncMap.index_of_not_key _ _ (by rw [hkeys]; exact hk)
  refine ⟨?_, hkeys, ?_, hdrop, ?_⟩
  · cases fmap with
    | none => exact ⟨_, rfl, fun _ h => by simp at h, fun _ => rfl⟩
    | some entries =>
      refine ⟨_, rfl, ?_, fun h => by simp at h⟩
      intro e he
      simpa [Option.isNone] using he
  · intro k hk
    rw [hkeys] at hk
    simp only [List.mem_cons, List.mem_singleton, List.not_mem_nil, or_false] at hk
    rcases hk with rfl | rfl | rfl | rfl
    · exact ⟨b.SayHello, rfl⟩
    · exact ⟨b.Echo, rfl⟩
    · exact ⟨b.Exchange, rfl⟩
    · exact ⟨b.Retrieve, rfl⟩
  · intro j p hj
    exact hdrop j ⟨""⟩ p ⟨"", [], ⟨""⟩⟩ hj rfl (by decide)

/-- C6, the code where bucket creation fails: `createAllBuckets` returns an
error and creates no bucket, and `InitJarvis` still returns a bot, whose
database has no bucket `"rates"`. -/
theorem InitJarvis_returns_despite_bucket_error (bot : Option TelebotBot)
    (lg : Option Logger) (fmap : FuncMap) (b : Builtins) :
    createAllBuckets fullDiskDB =
      (fullDiskDB, some "write jarvis.db: no space left on device") ∧
    ∃ j, InitJarvis bot lg fmap b (.ok fullDiskDB) = .returned j ∧
      j.db = some fullDiskDB ∧
      exchange_rate_bucket_name ∉ fullDiskDB.buckets := by
  refine ⟨rfl, _, rfl, rfl, ?_⟩
  simp [fullDiskDB]

end Jarvisbot
